import Mathlib

/-!
Verification development for the BlackJack simulator (`BlackJack.py`).

The Python classes `Card`, `Shoe`, `Hand`, `Player` and `Dealer` are shallowly
embedded below.  Mutation of card values (ace demotion inside `Hand.value`) is
made explicit: `valueRun` returns both the computed value and the updated card
list, and `Hand.normalize` is the card-state update performed by a call to the
`value` property.
-/

namespace BlackJack

/-- `Card` from `BlackJack.py`: a name and a (mutable) value. -/
structure Card where
  name : String
  value : Nat
deriving DecidableEq, Repr, Inhabited

/-- `HouseRules.MAX_SPLIT_HANDS` (line 25). -/
def MAX_SPLIT_HANDS : Nat := 4

/-- `HouseRules.HIT_SOFT_17` (line 26). -/
def HIT_SOFT_17 : Bool := true

/-- `HouseRules.ALLOW_RESPLIT_ACES` (line 27). -/
def ALLOW_RESPLIT_ACES : Bool := false

/-- `DECK_SIZE = 52.0` (line 11). -/
def DECK_SIZE : ℚ := 52

/-- A card counted by `Hand.aces_soft`: named "Ace" and currently valued 11. -/
def isSoftAce (c : Card) : Bool := c.name = "Ace" && c.value = 11

/-- The plain sum of all card values, the first phase of `Hand.value`. -/
def rawSum (cs : List Card) : Nat := (cs.map Card.value).sum

/-- `Hand.aces` (lines 128-137): the cards named "Ace", in hand order. -/
def acesList (cs : List Card) : List Card := cs.filter (fun c => c.name = "Ace")

/-- `Hand.aces_soft` (lines 139-148): the number of aces currently valued 11. -/
def acesSoft (cs : List Card) : Nat := cs.countP (fun c => isSoftAce c)

/-- The ace-demotion loop inside `Hand.value` (lines 118-124): scan the cards in
order; each ace valued 11 is set to value 1 and 10 is subtracted from the running
total; the loop breaks as soon as the running total is at most 21. -/
def demoteAces : List Card → Nat → List Card × Nat
  | [], v => ([], v)
  | c :: cs, v =>
    if isSoftAce c then
      if v - 10 ≤ 21 then ({ c with value := 1 } :: cs, v - 10)
      else
        let r := demoteAces cs (v - 10)
        ({ c with value := 1 } :: r.1, r.2)
    else
      let r := demoteAces cs v
      (c :: r.1, r.2)

/-- The `Hand.value` property (lines 109-126) on a card list: returns the computed
value together with the updated (possibly ace-demoted) card list. -/
def valueRun (cs : List Card) : Nat × List Card :=
  let s := rawSum cs
  if 21 < s ∧ 0 < acesSoft cs then
    let r := demoteAces cs s
    (r.2, r.1)
  else (s, cs)

/-- `Hand` from `BlackJack.py` (lines 89-101): a card list and the
`splithand` / `surrender` / `doubled` flags. -/
structure Hand where
  cards : List Card
  splithand : Bool := false
  surrender : Bool := false
  doubled : Bool := false
deriving DecidableEq, Repr

/-- The value returned by the `Hand.value` property (lines 109-126). -/
def Hand.value (h : Hand) : Nat := (valueRun h.cards).1

/-- The card-state mutation performed by a call to the `Hand.value` property:
the hand with its aces demoted as the property's loop leaves them. -/
def Hand.normalize (h : Hand) : Hand := { h with cards := (valueRun h.cards).2 }

/-- `Hand.length` (lines 211-215). -/
def Hand.length (h : Hand) : Nat := h.cards.length

/-- `Hand.soft` (lines 150-157): the hand holds at least one ace valued 11. -/
def Hand.soft (h : Hand) : Bool := 0 < acesSoft h.cards

/-- `Hand.splitable` (lines 159-166): exactly two cards with equal names. -/
def Hand.splitable (h : Hand) : Bool :=
  match h.cards with
  | [c0, c1] => c0.name = c1.name
  | _ => false

/-- `Hand.can_double` (lines 168-171). -/
def Hand.can_double (h : Hand) : Bool :=
  match h.cards with
  | c0 :: _ =>
    h.length = 2 &&
      ((h.splithand && !(c0.value = 10 || c0.value = 11)) || !h.splithand)
  | [] => false

/-- `Hand.blackjack` (lines 173-183). -/
def Hand.blackjack (h : Hand) : Bool :=
  h.value = 21 && (h.length = 2 && !h.splithand)

/-- `Hand.busted` (lines 185-192). -/
def Hand.busted (h : Hand) : Bool := 21 < h.value

/-- `Hand.get_winner_status` (lines 217-241), with the card-state mutation made
explicit: returns the status (or the raised `IncompleteHandException` as an
`Except.error`) together with both hands as the call leaves them.  The value
property is only evaluated on the hands actually reached by the short-circuited
branch conditions, hence the varying use of `normalize`. -/
def Hand.get_winner_statusM (h dh : Hand) : Except String String × Hand × Hand :=
  if h.length < 2 ∨ dh.length < 2 then
    (.error "At least one of these hands has not completed playing", h, dh)
  else if h.surrender then (.ok "LOSE", h, dh)
  else if h.busted then (.ok "LOSE", h.normalize, dh)
  else if dh.busted then (.ok "WIN", h.normalize, dh.normalize)
  else if h.blackjack && !dh.blackjack then (.ok "WIN", h.normalize, dh.normalize)
  else if !h.blackjack && dh.blackjack then (.ok "LOSE", h.normalize, dh.normalize)
  else if h.blackjack && dh.blackjack then (.ok "PUSH", h.normalize, dh.normalize)
  else if dh.value < h.value then (.ok "WIN", h.normalize, dh.normalize)
  else if h.value < dh.value then (.ok "LOSE", h.normalize, dh.normalize)
  else (.ok "PUSH", h.normalize, dh.normalize)

/-- The status returned by `Hand.get_winner_status` (lines 217-241). -/
def Hand.get_winner_status (h dh : Hand) : Except String String :=
  (h.get_winner_statusM dh).1

/-- `Hand.get_winning_multiplier` (lines 243-263); the Python floats are the
exact decimals -0.5, -1.0, 0.0, 1.0, 1.5, embedded as rationals. -/
def Hand.get_winning_multiplier (h dh : Hand) : Except String ℚ :=
  match h.get_winner_status dh with
  | .error e => .error e
  | .ok ws =>
    let m : ℚ :=
      if ws = "LOSE" && h.surrender then -(1/2)
      else if ws = "LOSE" then -1
      else if ws = "PUSH" then 0
      else if ws = "WIN" && !h.blackjack then 1
      else if ws = "WIN" && h.blackjack then 3/2
      else 0
    .ok (if h.doubled then m * 2 else m)

/-- `Shoe` (lines 50-59): remaining cards, deck count, penetration threshold
(drawn once at construction) and the `reshuffle` flag. -/
structure Shoe where
  decks : Nat
  cards : List Card
  penetration_threshold : ℚ
  reshuffle : Bool := false
deriving DecidableEq, Repr

/-- `Shoe.deal` (lines 79-86): compare the remaining/total ratio with the
penetration threshold (setting `reshuffle` when below, never clearing it), then
pop and return the card at the top (the end of the list).  Python raises on an
empty shoe; this is the `none` case. -/
def Shoe.deal (s : Shoe) : Option (Card × Shoe) :=
  match s.cards.getLast? with
  | none => none
  | some c =>
    some (c,
      { s with
        cards := s.cards.dropLast
        reshuffle := s.reshuffle ||
          decide ((s.cards.length : ℚ) / (DECK_SIZE * s.decks) < s.penetration_threshold) })

/-- The shoe reinitialization done by the orchestrator (lines 436-440): a fresh
full card set is installed and the `reshuffle` flag cleared; the threshold
is untouched. -/
def Shoe.reinit (s : Shoe) (fresh : List Card) : Shoe :=
  { s with cards := fresh, reshuffle := false }

/-- The dealer's hit decision, the loop condition of `Dealer.play` (line 348):
hit exactly while the hand's value is strictly below 17. -/
def dealerShouldHit (h : Hand) : Bool := h.value < 17

/-- The dealer's hit decision as the specification describes it: hit while the
value is below 17, and, when `HIT_SOFT_17` is enabled, also on a soft 17. -/
def claimDealerShouldHit (h : Hand) : Bool :=
  h.value < 17 || (HIT_SOFT_17 && h.value = 17 && h.soft)

/-- `Player.can_split` (lines 280-283); `numHands` is `len(self.hands)`. -/
def can_split (numHands : Nat) (h : Hand) : Bool :=
  h.splitable && (numHands < MAX_SPLIT_HANDS &&
    (numHands = 1 || (acesList h.cards).length < 2))

/-- The three strategy tables consulted by `Player.play_hand`. -/
inductive StrategyTable
  | Pair
  | Soft
  | Hard
deriving DecidableEq, Repr

/-- The strategy-table selection of `Player.play_hand` (lines 291-300): which
table is consulted and with which key `(row, dealer first card's name)`.  The
`while` condition has already evaluated `hand.busted()`, so the hand the lookup
sees is the normalized one. -/
def strategyLookup (numHands : Nat) (h : Hand) (dealerFirst : Card) :
    StrategyTable × Nat × String :=
  let hn := h.normalize
  if can_split numHands hn then
    if (acesList hn.cards).length = 2 then (.Pair, 22, dealerFirst.name)
    else (.Pair, hn.value, dealerFirst.name)
  else if hn.soft then (.Soft, hn.value, dealerFirst.name)
  else (.Hard, hn.value, dealerFirst.name)

/-- Demote the first ace currently valued 11 (in hand order) to value 1, one
step of the valuation loop as the specification words it. -/
def demoteFirstSoftAce : List Card → List Card
  | [] => []
  | c :: cs =>
    if isSoftAce c then { c with value := 1 } :: cs
    else c :: demoteFirstSoftAce cs

/-- The valuation loop as the specification words it: while the sum exceeds 21
and some ace is valued 11, demote the first such ace; the fuel bounds the
number of iterations (the number of demotable aces suffices). -/
def specLoop : Nat → List Card → List Card
  | 0, cs => cs
  | fuel + 1, cs =>
    if 21 < rawSum cs ∧ 0 < acesSoft cs then specLoop fuel (demoteFirstSoftAce cs)
    else cs

/-- `Hand.value` as the specification words it: run the demotion loop, return
the final sum together with the updated cards. -/
def specValueRun (cs : List Card) : Nat × List Card :=
  let cs2 := specLoop (acesSoft cs) cs
  (rawSum cs2, cs2)

/-- The outcome decision table as the specification words it. -/
def specOutcome (h dh : Hand) : String :=
  if h.surrender || h.busted then "LOSE"
  else if dh.busted then "WIN"
  else if h.blackjack && !dh.blackjack then "WIN"
  else if dh.blackjack && !h.blackjack then "LOSE"
  else if h.blackjack && dh.blackjack then "PUSH"
  else if dh.value < h.value then "WIN"
  else if h.value < dh.value then "LOSE"
  else "PUSH"

/-- The winnings multiplier as the specification words it: -0.5 for a LOSE with
surrender, -1 for any other LOSE, 0 for PUSH, 1.5 for a WIN with blackjack,
1 for any other WIN; a doubled hand multiplies the result by 2. -/
def specMultiplier (h dh : Hand) : ℚ :=
  let ws := specOutcome h dh
  let base : ℚ :=
    if ws = "LOSE" then (if h.surrender then -(1/2) else -1)
    else if ws = "PUSH" then 0
    else if h.blackjack then 3/2 else 1
  if h.doubled then base * 2 else base

/-- The strategy-table selection exactly as the claim words it: a hand is
split-eligible when it is splitable, the hand count is below
`MAX_SPLIT_HANDS`, and, when the pair is aces, `ALLOW_RESPLIT_ACES` permits;
the distinguished key 22 is used when the pair consists of two aces already
split. -/
def claimLookup (numHands : Nat) (h : Hand) (dealerFirst : Card) :
    StrategyTable × Nat × String :=
  let hn := h.normalize
  let acesPair : Bool := hn.splitable && (acesList hn.cards).length = 2
  if hn.splitable && (numHands < MAX_SPLIT_HANDS && (!acesPair || ALLOW_RESPLIT_ACES)) then
    if acesPair && hn.splithand then (.Pair, 22, dealerFirst.name)
    else (.Pair, hn.value, dealerFirst.name)
  else if hn.soft then (.Soft, hn.value, dealerFirst.name)
  else (.Hard, hn.value, dealerFirst.name)

/-- The strategy-table selection as the amended claim words it: a pair is
split-eligible when the hand is splitable, the hand count is below
`MAX_SPLIT_HANDS`, and, when the pair is two aces, the player still holds a
single hand (the code hardcodes the no-resplit-aces behaviour instead of
consulting `ALLOW_RESPLIT_ACES`); the distinguished key 22 is used whenever
the eligible pair consists of two aces. -/
def amendedLookup (numHands : Nat) (h : Hand) (dealerFirst : Card) :
    StrategyTable × Nat × String :=
  let hn := h.normalize
  let acesPair : Bool := (acesList hn.cards).length = 2
  if hn.splitable && (numHands < MAX_SPLIT_HANDS && (!acesPair || numHands = 1)) then
    if acesPair then (.Pair, 22, dealerFirst.name)
    else (.Pair, hn.value, dealerFirst.name)
  else if hn.soft then (.Soft, hn.value, dealerFirst.name)
  else (.Hard, hn.value, dealerFirst.name)

/-! ### Helper lemmas about the ace-demotion loop -/

theorem acesSoft_cons (c : Card) (cs : List Card) :
    acesSoft (c :: cs) = acesSoft cs + (if isSoftAce c then 1 else 0) := by
  simp [acesSoft, List.countP_cons]

theorem rawSum_cons (c : Card) (cs : List Card) :
    rawSum (c :: cs) = c.value + rawSum cs := by
  simp [rawSum]

theorem isSoftAce_demoted (c : Card) : isSoftAce { c with value := 1 } = false := by
  simp [isSoftAce]

theorem isSoftAce_value {c : Card} (hc : isSoftAce c = true) : c.value = 11 := by
  simp [isSoftAce] at hc
  exact hc.2

theorem demoteAces_of_no_soft (cs : List Card) (v : Nat) (h : acesSoft cs = 0) :
    demoteAces cs v = (cs, v) := by
  induction cs generalizing v with
  | nil => simp [demoteAces]
  | cons c cs ih =>
    rw [acesSoft_cons] at h
    cases hc : isSoftAce c with
    | true => rw [hc] at h; simp at h
    | false =>
      rw [hc] at h
      simp at h
      simp [demoteAces, hc, ih v h]

theorem demoteAces_sum (cs : List Card) (v : Nat) (hv : 21 < v) :
    rawSum (demoteAces cs v).1 + v = rawSum cs + (demoteAces cs v).2 := by
  induction cs generalizing v with
  | nil => simp [demoteAces]
  | cons c cs ih =>
    by_cases hc : isSoftAce c = true
    · have hcv : c.value = 11 := isSoftAce_value hc
      by_cases hle : v - 10 ≤ 21
      · simp [demoteAces, hc, hle, rawSum_cons, hcv]
        omega
      · have hv2 : 21 < v - 10 := by omega
        have := ih (v - 10) hv2
        simp [demoteAces, hc, hle, rawSum_cons, hcv] at this ⊢
        omega
    · have hc2 : isSoftAce c = false := by simpa using hc
      have := ih v hv
      simp [demoteAces, hc2, rawSum_cons] at this ⊢
      omega

theorem demoteAces_soft (cs : List Card) (v : Nat) (hv : 21 < v) :
    (demoteAces cs v).2 + 10 * acesSoft cs = v + 10 * acesSoft (demoteAces cs v).1 := by
  induction cs generalizing v with
  | nil => simp [demoteAces]
  | cons c cs ih =>
    by_cases hc : isSoftAce c = true
    · by_cases hle : v - 10 ≤ 21
      · simp [demoteAces, hc, hle, acesSoft_cons, isSoftAce_demoted]
        omega
      · have hv2 : 21 < v - 10 := by omega
        have := ih (v - 10) hv2
        simp [demoteAces, hc, hle, acesSoft_cons, isSoftAce_demoted] at this ⊢
        omega
    · have hc2 : isSoftAce c = false := by simpa using hc
      have := ih v hv
      simp [demoteAces, hc2, acesSoft_cons] at this ⊢
      omega

theorem demoteAces_le_or_no_soft (cs : List Card) (v : Nat) :
    (demoteAces cs v).2 ≤ 21 ∨ acesSoft (demoteAces cs v).1 = 0 := by
  induction cs generalizing v with
  | nil => right; simp [demoteAces, acesSoft]
  | cons c cs ih =>
    by_cases hc : isSoftAce c = true
    · by_cases hle : v - 10 ≤ 21
      · left; simp [demoteAces, hc, hle]
      · rcases ih (v - 10) with h1 | h1
        · left; simp [demoteAces, hc, hle, h1]
        · right; simp [demoteAces, hc, hle, acesSoft_cons, isSoftAce_demoted, h1]
    · have hc2 : isSoftAce c = false := by simpa using hc
      rcases ih v with h1 | h1
      · left; simp [demoteAces, hc2, h1]
      · right; simp [demoteAces, hc2, acesSoft_cons, h1]

theorem demoteFirstSoftAce_rawSum (cs : List Card) (hs : 0 < acesSoft cs) :
    rawSum (demoteFirstSoftAce cs) + 10 = rawSum cs := by
  induction cs with
  | nil => simp [acesSoft] at hs
  | cons c cs ih =>
    by_cases hc : isSoftAce c = true
    · have hcv : c.value = 11 := isSoftAce_value hc
      simp [demoteFirstSoftAce, hc, rawSum_cons, hcv]
      omega
    · have hc2 : isSoftAce c = false := by simpa using hc
      rw [acesSoft_cons, hc2] at hs
      simp at hs
      have := ih hs
      simp [demoteFirstSoftAce, hc2, rawSum_cons]
      omega

theorem demoteFirstSoftAce_soft (cs : List Card) (hs : 0 < acesSoft cs) :
    acesSoft (demoteFirstSoftAce cs) + 1 = acesSoft cs := by
  induction cs with
  | nil => simp [acesSoft] at hs
  | cons c cs ih =>
    by_cases hc : isSoftAce c = true
    · simp [demoteFirstSoftAce, hc, acesSoft_cons, isSoftAce_demoted]
    · have hc2 : isSoftAce c = false := by simpa using hc
      rw [acesSoft_cons, hc2] at hs
      simp at hs
      have := ih hs
      simp [demoteFirstSoftAce, hc2, acesSoft_cons]
      omega

theorem demoteAces_step (cs : List Card) (v : Nat) (hv : 21 < v) (hs : 0 < acesSoft cs) :
    demoteAces cs v =
      if v - 10 ≤ 21 then (demoteFirstSoftAce cs, v - 10)
      else demoteAces (demoteFirstSoftAce cs) (v - 10) := by
  induction cs generalizing v with
  | nil => simp [acesSoft] at hs
  | cons c cs ih =>
    by_cases hc : isSoftAce c = true
    · by_cases hle : v - 10 ≤ 21
      · simp [demoteAces, demoteFirstSoftAce, hc, hle]
      · simp [demoteAces, demoteFirstSoftAce, hc, hle, isSoftAce_demoted]
    · have hc2 : isSoftAce c = false := by simpa using hc
      rw [acesSoft_cons, hc2] at hs
      simp at hs
      have step := ih v hv hs
      by_cases hle : v - 10 ≤ 21
      · rw [if_pos hle] at step
        simp [demoteAces, demoteFirstSoftAce, hc2, hle, step]
      · rw [if_neg hle] at step
        simp [demoteAces, demoteFirstSoftAce, hc2, hle, step]

theorem specLoop_stable (fuel : Nat) (cs : List Card)
    (h : ¬(21 < rawSum cs ∧ 0 < acesSoft cs)) : specLoop fuel cs = cs := by
  cases fuel with
  | zero => rfl
  | succ fuel => simp [specLoop, h]

theorem demoteAces_eq_specLoop (fuel : Nat) :
    ∀ cs : List Card, acesSoft cs ≤ fuel → 21 < rawSum cs →
      (demoteAces cs (rawSum cs)).1 = specLoop fuel cs := by
  induction fuel with
  | zero =>
    intro cs hf hv
    have h0 : acesSoft cs = 0 := by omega
    rw [demoteAces_of_no_soft cs (rawSum cs) h0]
    rfl
  | succ fuel ih =>
    intro cs hf hv
    by_cases hs : 0 < acesSoft cs
    · have hd10 : rawSum (demoteFirstSoftAce cs) + 10 = rawSum cs :=
        demoteFirstSoftAce_rawSum cs hs
      have hstep := demoteAces_step cs (rawSum cs) hv hs
      have hrw : rawSum cs - 10 = rawSum (demoteFirstSoftAce cs) := by omega
      rw [hrw] at hstep
      have hloop : specLoop (fuel + 1) cs = specLoop fuel (demoteFirstSoftAce cs) := by
        simp [specLoop, hv, hs]
      rw [hloop]
      by_cases h21 : rawSum (demoteFirstSoftAce cs) ≤ 21
      · rw [if_pos h21] at hstep
        rw [hstep]
        rw [specLoop_stable fuel (demoteFirstSoftAce cs) (by omega)]
      · rw [if_neg h21] at hstep
        rw [hstep]
        have hsle : acesSoft (demoteFirstSoftAce cs) ≤ fuel := by
          have := demoteFirstSoftAce_soft cs hs
          omega
        exact ih (demoteFirstSoftAce cs) hsle (by omega)
    · have h0 : acesSoft cs = 0 := by omega
      rw [demoteAces_of_no_soft cs (rawSum cs) h0]
      rw [specLoop_stable (fuel + 1) cs (by simp [h0])]

theorem valueRun_eq_spec (cs : List Card) : valueRun cs = specValueRun cs := by
  by_cases hg : 21 < rawSum cs ∧ 0 < acesSoft cs
  · have hmain := demoteAces_eq_specLoop (acesSoft cs) cs (le_refl _) hg.1
    have hsum := demoteAces_sum cs (rawSum cs) hg.1
    simp only [valueRun, specValueRun, hg, if_pos]
    rw [← hmain]
    have : (demoteAces cs (rawSum cs)).2 = rawSum (demoteAces cs (rawSum cs)).1 := by omega
    simp [this]
  · simp only [valueRun, specValueRun, hg, if_neg]
    rw [specLoop_stable (acesSoft cs) cs hg]
    simp

theorem valueRun_idem (cs : List Card) : valueRun (valueRun cs).2 = valueRun cs := by
  by_cases hg : 21 < rawSum cs ∧ 0 < acesSoft cs
  · have hsum := demoteAces_sum cs (rawSum cs) hg.1
    have hd : rawSum (demoteAces cs (rawSum cs)).1 = (demoteAces cs (rawSum cs)).2 := by
      omega
    have hdis := demoteAces_le_or_no_soft cs (rawSum cs)
    have hgoal : valueRun (demoteAces cs (rawSum cs)).1 =
        ((demoteAces cs (rawSum cs)).2, (demoteAces cs (rawSum cs)).1) := by
      rcases hdis with h1 | h1
      · rw [valueRun, if_neg (by omega), hd]
      · rw [valueRun, if_neg (by omega), hd]
    simp only [valueRun, hg, if_pos]
    exact hgoal
  · simp [valueRun, hg]

theorem value_le_of_demotable (cs : List Card) (hs : 0 < acesSoft cs)
    (hb : rawSum cs - 10 * acesSoft cs ≤ 21) : (valueRun cs).1 ≤ 21 := by
  by_cases hv : 21 < rawSum cs
  · have hg : 21 < rawSum cs ∧ 0 < acesSoft cs := ⟨hv, hs⟩
    have hval : (valueRun cs).1 = (demoteAces cs (rawSum cs)).2 := by
      simp only [valueRun]
      rw [if_pos hg]
    rw [hval]
    have hsoft := demoteAces_soft cs (rawSum cs) hv
    rcases demoteAces_le_or_no_soft cs (rawSum cs) with h1 | h1
    · exact h1
    · rw [h1] at hsoft
      omega
  · simp only [valueRun]
    rw [if_neg (by omega)]
    omega

/-! ### Helper lemmas about outcome resolution and strategy selection -/

theorem get_winner_status_spec (h dh : Hand) (h1 : 2 ≤ h.length) (h2 : 2 ≤ dh.length) :
    h.get_winner_status dh = .ok (specOutcome h dh) := by
  simp only [Hand.get_winner_status, Hand.get_winner_statusM, specOutcome]
  rw [if_neg (by omega)]
  by_cases hs : h.surrender = true
  · simp [hs]
  · have hs2 : h.surrender = false := by simpa using hs
    simp only [hs2, if_false, Bool.false_or]
    by_cases hb : h.busted = true
    · simp [hb]
    · have hb2 : h.busted = false := by simpa using hb
      simp only [hb2, if_false]
      by_cases hdb : dh.busted = true
      · simp [hdb]
      · have hdb2 : dh.busted = false := by simpa using hdb
        simp only [hdb2, if_false]
        by_cases hj : h.blackjack = true
        · by_cases hdj : dh.blackjack = true
          · simp [hj, hdj]
          · have hdj2 : dh.blackjack = false := by simpa using hdj
            simp [hj, hdj2]
        · have hj2 : h.blackjack = false := by simpa using hj
          by_cases hdj : dh.blackjack = true
          · simp [hj2, hdj]
          · have hdj2 : dh.blackjack = false := by simpa using hdj
            simp only [hj2, hdj2, Bool.and_false, Bool.false_and, Bool.and_self,
              Bool.not_false, Bool.true_and, if_false]
            by_cases hv1 : dh.value < h.value
            · simp [hv1]
            · simp only [hv1, if_false]
              by_cases hv2 : h.value < dh.value
              · simp [hv2]
              · simp [hv2]

theorem specOutcome_cases (h dh : Hand) :
    specOutcome h dh = "WIN" ∨ specOutcome h dh = "LOSE" ∨ specOutcome h dh = "PUSH" := by
  unfold specOutcome
  repeat' split
  all_goals simp

theorem splitable_length {h : Hand} (hs : h.splitable = true) : h.cards.length = 2 := by
  unfold Hand.splitable at hs
  rcases h with ⟨cs, sp, su, d⟩
  match cs with
  | [] => simp at hs
  | [c0] => simp at hs
  | [c0, c1] => rfl
  | c0 :: c1 :: c2 :: rest => simp at hs

theorem acesList_le (cs : List Card) : (acesList cs).length ≤ cs.length :=
  List.length_filter_le _ cs

/-! ### Claim theorems -/

/-- C1: the spec says the dealer, with `HIT_SOFT_17` enabled, also hits a soft 17;
the code's `Dealer.play` loop condition is only `value < 17` and never consults
`HIT_SOFT_17`, so the dealer stands on the soft 17 hand Ace+Six even though the
house rule is enabled: the code diverges from the claimed (and configured)
behaviour. -/
theorem dealer_stands_on_soft_17 :
    dealerShouldHit { cards := [⟨"Ace", 11⟩, ⟨"Six", 6⟩] } = false ∧
    claimDealerShouldHit { cards := [⟨"Ace", 11⟩, ⟨"Six", 6⟩] } = true ∧
    HIT_SOFT_17 = true ∧
    Hand.value { cards := [⟨"Ace", 11⟩, ⟨"Six", 6⟩] } = 17 ∧
    Hand.soft { cards := [⟨"Ace", 11⟩, ⟨"Six", 6⟩] } = true := by
  decide

/-- C2: `value()` sums all card values and then, while the sum exceeds 21 and an
ace valued 11 remains, demotes the first such ace in hand order (subtracting 10
and storing 1 in the card), stopping as soon as the sum is at most 21 or no
demotable ace remains; the returned sum may exceed 21, and the demotion is
recorded in the hand's cards.  `valueRun` (the code) coincides with
`specValueRun` (the spec's loop) on every hand. -/
theorem hand_value_matches_spec :
    (∀ h : Hand, valueRun h.cards = specValueRun h.cards) ∧
    Hand.value { cards := [⟨"King", 10⟩, ⟨"Queen", 10⟩, ⟨"Seven", 7⟩] } = 27 ∧
    (valueRun [⟨"Ace", 11⟩, ⟨"Ace", 11⟩]).2 = [⟨"Ace", 1⟩, ⟨"Ace", 11⟩] :=
  ⟨fun h => valueRun_eq_spec h.cards, by decide, by decide⟩

/-- C5: `can_double()` returns true exactly when the hand has two cards and
either it is not a split result or its first card's value is neither 10 nor
11. -/
theorem can_double_iff (h : Hand) :
    h.can_double = true ↔
      (h.length = 2 ∧ (h.splithand = false ∨
        (h.cards.headI.value ≠ 10 ∧ h.cards.headI.value ≠ 11))) := by
  rcases h with ⟨cs, sp, su, d⟩
  match cs with
  | [] => simp [Hand.can_double, Hand.length]
  | c0 :: rest =>
    cases sp <;>
      simp [Hand.can_double, Hand.length, List.headI, not_or]

/-- C8: `is_blackjack()` is true exactly when the value is 21, the hand holds
two cards and the hand is not split-derived; Ace+King is a blackjack worth 21,
while the same two cards with the split flag set are worth 21 but are not a
blackjack. -/
theorem blackjack_iff :
    (∀ h : Hand, h.blackjack = true ↔
      (h.value = 21 ∧ h.length = 2 ∧ h.splithand = false)) ∧
    Hand.value { cards := [⟨"Ace", 11⟩, ⟨"King", 10⟩] } = 21 ∧
    Hand.blackjack { cards := [⟨"Ace", 11⟩, ⟨"King", 10⟩] } = true ∧
    Hand.value { cards := [⟨"Ace", 11⟩, ⟨"King", 10⟩], splithand := true } = 21 ∧
    Hand.blackjack { cards := [⟨"Ace", 11⟩, ⟨"King", 10⟩], splithand := true } = false := by
  refine ⟨fun h => ?_, by decide, by decide, by decide, by decide⟩
  simp [Hand.blackjack]

/-- C10: repeated invocations of `value()` stabilize immediately: a second call
on the unchanged (already demoted) hand returns the same value and changes no
card, and whenever the hand holds a demotable ace and the raw sum minus ten
times the demotable-ace count is at most 21, the returned value is at most
21. -/
theorem value_idempotent_and_bounded :
    (∀ h : Hand, h.normalize.value = h.value ∧ h.normalize.normalize = h.normalize) ∧
    (∀ h : Hand, 0 < acesSoft h.cards →
      rawSum h.cards - 10 * acesSoft h.cards ≤ 21 → h.value ≤ 21) := by
  constructor
  · intro h
    constructor
    · show (valueRun (valueRun h.cards).2).1 = (valueRun h.cards).1
      rw [valueRun_idem]
    · show Hand.normalize { h with cards := (valueRun h.cards).2 } =
        { h with cards := (valueRun h.cards).2 }
      simp [Hand.normalize, valueRun_idem]
  · intro h hs hb
    exact value_le_of_demotable h.cards hs hb

/-- Witness for C10 at the concrete hand Ace, Ace, King: raw sum 32 with two
demotable aces, 32 - 20 = 12 ≤ 21, so the value is at most 21; the second
valuation changes nothing. -/
theorem value_idempotent_and_bounded_witness :
    Hand.value { cards := [⟨"Ace", 11⟩, ⟨"Ace", 11⟩, ⟨"King", 10⟩] } ≤ 21 ∧
    Hand.normalize (Hand.normalize { cards := [⟨"Ace", 11⟩, ⟨"Ace", 11⟩, ⟨"King", 10⟩] }) =
      Hand.normalize { cards := [⟨"Ace", 11⟩, ⟨"Ace", 11⟩, ⟨"King", 10⟩] } :=
  ⟨value_idempotent_and_bounded.2 { cards := [⟨"Ace", 11⟩, ⟨"Ace", 11⟩, ⟨"King", 10⟩] }
      (by decide) (by decide),
   (value_idempotent_and_bounded.1 { cards := [⟨"Ace", 11⟩, ⟨"Ace", 11⟩, ⟨"King", 10⟩] }).2⟩

/-- C3: for hands of at least two cards each, outcome resolution follows the
claimed decision table (surrender/bust lose first, then dealer bust wins, then
the blackjack comparisons, then the totals), embodied by `specOutcome`. -/
theorem winner_status_decision_table (h dh : Hand)
    (h1 : 2 ≤ h.length) (h2 : 2 ≤ dh.length) :
    h.get_winner_status dh = .ok (specOutcome h dh) :=
  get_winner_status_spec h dh h1 h2

/-- Witness for C3: a 20 against a dealer 17 resolves to WIN. -/
theorem winner_status_decision_table_witness :
    Hand.get_winner_status { cards := [⟨"King", 10⟩, ⟨"Queen", 10⟩] }
      { cards := [⟨"King", 10⟩, ⟨"Seven", 7⟩] } = .ok "WIN" := by
  rw [winner_status_decision_table _ _ (by decide) (by decide)]
  rfl

/-- C6: for hands of at least two cards each, the winnings multiplier is -0.5
for a surrendered LOSE, -1 for any other LOSE, 0 for PUSH, 1.5 for a blackjack
WIN, 1 for any other WIN, doubled when the `doubled` flag is set, embodied by
`specMultiplier`. -/
theorem winning_multiplier_table (h dh : Hand)
    (h1 : 2 ≤ h.length) (h2 : 2 ≤ dh.length) :
    h.get_winning_multiplier dh = .ok (specMultiplier h dh) := by
  unfold Hand.get_winning_multiplier
  rw [get_winner_status_spec h dh h1 h2]
  unfold specMultiplier
  have hne1 : ("WIN" : String) ≠ "LOSE" := by decide
  have hne2 : ("WIN" : String) ≠ "PUSH" := by decide
  have hne3 : ("PUSH" : String) ≠ "LOSE" := by decide
  have hne4 : ("LOSE" : String) ≠ "PUSH" := by decide
  have hne5 : ("PUSH" : String) ≠ "WIN" := by decide
  rcases specOutcome_cases h dh with hw | hw | hw <;> rw [hw]
  · by_cases hbj : h.blackjack = true
    · simp [hne1, hne2, hbj]
    · have hbj2 : h.blackjack = false := by simpa using hbj
      simp [hne1, hne2, hbj2]
  · by_cases hs : h.surrender = true
    · simp [hne4, hs]
    · have hs2 : h.surrender = false := by simpa using hs
      simp [hne4, hs2]
  · simp [hne3, hne5]

/-- Witness for C6: a doubled blackjack win pays 1.5 doubled to 3. -/
theorem winning_multiplier_table_witness :
    Hand.get_winning_multiplier { cards := [⟨"Ace", 11⟩, ⟨"King", 10⟩], doubled := true }
      { cards := [⟨"King", 10⟩, ⟨"Seven", 7⟩] } = .ok 3 := by
  rw [winning_multiplier_table _ _ (by decide) (by decide)]
  have hne1 : ("WIN" : String) ≠ "LOSE" := by decide
  have hne2 : ("WIN" : String) ≠ "PUSH" := by decide
  norm_num [specMultiplier, specOutcome, Hand.blackjack, Hand.busted, Hand.value,
    Hand.length, Hand.soft, valueRun, rawSum, acesSoft, hne1, hne2]

/-- C7: `get_winner_status` raises the incomplete-hand failure exactly when one
of the two hands holds fewer than two cards; the failure propagates (no status
is produced) and neither hand is changed by the failed call; on complete hands
a status is always produced. -/
theorem winner_status_incomplete (h dh : Hand) :
    ((h.length < 2 ∨ dh.length < 2) →
      h.get_winner_statusM dh =
        (.error "At least one of these hands has not completed playing", h, dh)) ∧
    (2 ≤ h.length → 2 ≤ dh.length →
      ∃ s, (h.get_winner_statusM dh).1 = Except.ok s) := by
  constructor
  · intro hlt
    simp only [Hand.get_winner_statusM]
    rw [if_pos hlt]
  · intro h1 h2
    simp only [Hand.get_winner_statusM]
    rw [if_neg (by omega)]
    repeat' split
    all_goals exact ⟨_, rfl⟩

/-- Witness for C7: a one-card hand raises and is left unchanged; two complete
hands produce a status. -/
theorem winner_status_incomplete_witness :
    Hand.get_winner_statusM { cards := [⟨"Ace", 11⟩] } { cards := [⟨"King", 10⟩, ⟨"Queen", 10⟩] } =
      (.error "At least one of these hands has not completed playing",
        { cards := [⟨"Ace", 11⟩] }, { cards := [⟨"King", 10⟩, ⟨"Queen", 10⟩] }) ∧
    ∃ s, (Hand.get_winner_statusM { cards := [⟨"King", 10⟩, ⟨"Queen", 10⟩] }
      { cards := [⟨"King", 10⟩, ⟨"Seven", 7⟩] }).1 = Except.ok s :=
  ⟨(winner_status_incomplete _ _).1 (by decide),
   (winner_status_incomplete _ _).2 (by decide) (by decide)⟩

/-- C9: `deal()` on a non-empty shoe removes exactly the top card (the end of
the list) and returns it, decreasing the count by one; the threshold is
unchanged; the reshuffle flag, once true, stays true, is set exactly when the
remaining/total ratio is below the threshold, and is cleared (with the
threshold kept) only by the orchestrator's reinitialization. -/
theorem shoe_deal_invariants (s : Shoe) (fresh : List Card) (hne : s.cards ≠ []) :
    ∃ c s2, s.deal = some (c, s2) ∧
      c = s.cards.getLast hne ∧
      s2.cards = s.cards.dropLast ∧
      s2.cards.length + 1 = s.cards.length ∧
      s2.penetration_threshold = s.penetration_threshold ∧
      (s.reshuffle = true → s2.reshuffle = true) ∧
      ((s.cards.length : ℚ) / (DECK_SIZE * s.decks) < s.penetration_threshold →
        s2.reshuffle = true) ∧
      (s2.reshuffle = true →
        s.reshuffle = true ∨
          (s.cards.length : ℚ) / (DECK_SIZE * s.decks) < s.penetration_threshold) ∧
      (s.reinit fresh).reshuffle = false ∧
      (s.reinit fresh).penetration_threshold = s.penetration_threshold := by
  have hlast : s.cards.getLast? = some (s.cards.getLast hne) :=
    List.getLast?_eq_getLast s.cards hne
  unfold Shoe.deal
  rw [hlast]
  refine ⟨_, _, rfl, rfl, rfl, ?_, rfl, ?_, ?_, ?_, rfl, rfl⟩
  · have hpos : 0 < s.cards.length := List.length_pos.mpr hne
    simp [List.length_dropLast]
    omega
  · intro hr
    simp [hr]
  · intro hc
    simp [hc]
  · intro hb
    simp only [Bool.or_eq_true, decide_eq_true_eq] at hb
    exact hb

/-- Witness for C9: a one-card single-deck shoe with threshold 1/5: the ratio
1/52 is below the threshold, so the dealt card leaves the reshuffle flag set. -/
theorem shoe_deal_invariants_witness :
    ∃ c s2,
      Shoe.deal { decks := 1, cards := [⟨"Ace", 11⟩], penetration_threshold := 1/5 } =
        some (c, s2) ∧ s2.reshuffle = true := by
  obtain ⟨c, s2, hdeal, _, _, _, _, _, hset, _, _, _⟩ :=
    shoe_deal_invariants
      { decks := 1, cards := [⟨"Ace", 11⟩], penetration_threshold := 1/5 }
      [] (by simp)
  refine ⟨c, s2, hdeal, hset ?_⟩
  norm_num [DECK_SIZE]

/-- C4 counterexample: the claim keys the Pair table with the distinguished 22
only when the pair consists of two aces already split (and gates aces on
`ALLOW_RESPLIT_ACES`); the code keys 22 for any split-eligible pair of aces,
and a freshly dealt, never-split pair of aces with a single hand is eligible:
there the code consults Pair with key 22 while the claim's reading consults
the Soft table with key 12. -/
theorem strategy_lookup_aces_key_counterexample :
    strategyLookup 1 { cards := [⟨"Ace", 11⟩, ⟨"Ace", 11⟩] } ⟨"Seven", 7⟩ =
      (.Pair, 22, "Seven") ∧
    Hand.splithand { cards := [⟨"Ace", 11⟩, ⟨"Ace", 11⟩] } = false ∧
    claimLookup 1 { cards := [⟨"Ace", 11⟩, ⟨"Ace", 11⟩] } ⟨"Seven", 7⟩ =
      (.Soft, 12, "Seven") ∧
    strategyLookup 1 { cards := [⟨"Ace", 11⟩, ⟨"Ace", 11⟩] } ⟨"Seven", 7⟩ ≠
      claimLookup 1 { cards := [⟨"Ace", 11⟩, ⟨"Ace", 11⟩] } ⟨"Seven", 7⟩ := by
  decide

/-- C4 amended: the lookup precedence is Pair (when split-eligible), then Soft,
then Hard, with key (hand value, dealer's first card's rank); a pair of aces is
split-eligible only while the player holds a single hand (the hardcoded
no-resplit-aces rule), and the distinguished key 22 is used whenever the
eligible pair consists of two aces. -/
theorem strategy_lookup_amended (numHands : Nat) (h : Hand) (dealerFirst : Card) :
    strategyLookup numHands h dealerFirst = amendedLookup numHands h dealerFirst := by
  simp only [strategyLookup, amendedLookup, can_split]
  by_cases hsp : (h.normalize).splitable = true
  · have hlen2 := splitable_length hsp
    have hle := acesList_le (h.normalize).cards
    by_cases ha : (acesList (h.normalize).cards).length = 2
    · have hnl : ¬((acesList (h.normalize).cards).length < 2) := by omega
      by_cases hn1 : numHands = 1
      · simp [hsp, ha, hnl, hn1]
      · simp [hsp, ha, hnl, hn1]
    · have hlt : (acesList (h.normalize).cards).length < 2 := by
        rw [hlen2] at hle
        omega
      simp [hsp, ha, hlt]
  · have hsp2 : (h.normalize).splitable = false := by simpa using hsp
    simp [hsp2]

end BlackJack
